import Mathlib

/-!
Verification of the locplace coordinator's domain claim-and-lease logic.

The data model follows the SQL schema (migrations 002 and 004) and the Go
`db` package. Ids are `Nat`, timestamps are `Int` (seconds); nullable
columns are `Option`. The store is the list of persisted rows.
-/

namespace LocPlace

/-- Status of a root domain: `pending | in_progress | scanned | failed`. -/
inductive Status where
  | pending
  | inProgress
  | scanned
  | failed
deriving DecidableEq, Repr

/-- A row of `root_domains` (migration 002 adds `domain_set_id`,
migration 004 adds `queued_at`). `domain` is globally unique. -/
structure RootDomain where
  id : Nat
  domain : String
  domainSetId : Nat
  status : Status
  claimedBy : Option Nat
  claimedAt : Option Int
  queuedAt : Option Int
  lastScannedAt : Option Int
  subdomainsScanned : Nat
deriving DecidableEq, Repr

/-- A row of `domain_sets` (migration 002). -/
structure DomainSet where
  id : Nat
  name : String
  source : String
  createdAt : Int
deriving DecidableEq, Repr

/-- A row of `scanner_clients` (`db.ScannerClient`). -/
structure ScannerClient where
  id : Nat
  name : String
  tokenHash : String
  createdAt : Int
  lastHeartbeat : Option Int
deriving DecidableEq, Repr

/-- The persisted store: the three tables plus a fresh-id counter standing
in for the database's id generation. -/
structure Store where
  domainSets : List DomainSet
  rootDomains : List RootDomain
  clients : List ScannerClient
  nextId : Nat
deriving DecidableEq, Repr

/-- Errors surfaced by the db layer, per the spec's taxonomy §7. -/
inductive DbError where
  | notFound
  | conflict
deriving DecidableEq, Repr

/-- `DeleteDomainSet`: `DELETE FROM domain_sets WHERE id = $1`; returns
`pgx.ErrNoRows` (NotFound) when no row was affected. The schema declares
`root_domains.domain_set_id ... REFERENCES domain_sets(id) ON DELETE CASCADE`,
so a successful delete also removes every root domain of the set. -/
def Store.deleteDomainSet (s : Store) (setId : Nat) : Except DbError Store :=
  if s.domainSets.any (fun ds => ds.id = setId) then
    .ok { s with
      domainSets := s.domainSets.filter (fun ds => ds.id ≠ setId),
      rootDomains := s.rootDomains.filter (fun rd => rd.domainSetId ≠ setId) }
  else
    .error .notFound

/-- A freshly inserted root domain. `InsertDomainsToSet` supplies only
`(domain, domain_set_id)`; the remaining columns take their schema
defaults, which per spec §3 start the row Pending and unclaimed. -/
def newRootDomain (id : Nat) (domain : String) (setId : Nat) : RootDomain :=
  { id := id
    domain := domain
    domainSetId := setId
    status := .pending
    claimedBy := none
    claimedAt := none
    queuedAt := none
    lastScannedAt := none
    subdomainsScanned := 0 }

/-- One loop iteration of `InsertDomainsToSet`:
`INSERT INTO root_domains (domain, domain_set_id) VALUES ($1, $2)
ON CONFLICT (domain) DO NOTHING`. Returns the new store and the number of
rows affected (1 on insert, 0 on conflict with an existing domain name). -/
def Store.insertDomainExec (s : Store) (setId : Nat) (domain : String) :
    Store × Nat :=
  if s.rootDomains.any (fun rd => rd.domain = domain) then
    (s, 0)
  else
    ({ s with
        rootDomains := s.rootDomains ++ [newRootDomain s.nextId domain setId],
        nextId := s.nextId + 1 },
      1)

/-- `InsertDomainsToSet(setID, domains)`: inserts each domain in order,
counting `inserted` when a row was affected and `duplicates` otherwise.
Returns `(store, inserted, duplicates)`. -/
def Store.insertDomainsToSet (s : Store) (setId : Nat) :
    List String → Store × Nat × Nat
  | [] => (s, 0, 0)
  | d :: rest =>
    let e := s.insertDomainExec setId d
    let r := e.1.insertDomainsToSet setId rest
    if e.2 > 0 then (r.1, r.2.1 + 1, r.2.2) else (r.1, r.2.1, r.2.2 + 1)

/-- `InsertDomainsToSet` where each `Pool.Exec` call may fail with a
database error: `fails i = true` means the exec for the `i`-th processed
domain (counting from `idx`) returns an error, at which point the function
returns the counts accumulated so far (`return inserted, duplicates, err`);
rows inserted by earlier iterations remain persisted, as each exec commits
on its own (no surrounding transaction). The last component records
whether an error occurred. -/
def Store.insertDomainsToSetFallible (s : Store) (setId : Nat)
    (fails : Nat → Bool) (idx : Nat) :
    List String → Store × Nat × Nat × Bool
  | [] => (s, 0, 0, false)
  | d :: rest =>
    if fails idx then (s, 0, 0, true)
    else
      let e := s.insertDomainExec setId d
      let r := e.1.insertDomainsToSetFallible setId fails (idx + 1) rest
      if e.2 > 0 then (r.1, r.2.1 + 1, r.2.2.1, r.2.2.2)
      else (r.1, r.2.1, r.2.2.1 + 1, r.2.2.2)

/-- `ListClients` liveness classification (`handlers/admin.go`):
`isAlive := c.LastHeartbeat != nil && now.Sub(*c.LastHeartbeat) < h.HeartbeatTimeout`. -/
def clientIsAlive (c : ScannerClient) (now : Int) (timeout : Int) : Bool :=
  match c.lastHeartbeat with
  | none => false
  | some t => now - t < timeout

/-! ## Lease coordinator

The coordinator's claim/report/bump/heartbeat code is not among the
available source files; the definitions below are modelled from the spec
(§4.2–§4.4). -/

/-- Modelled from the spec: a `ClaimBatch` candidate is a root domain with
`status = Pending`, or `status = InProgress` and
`now − claimed_at > lease_ttl` (expired lease). -/
def claimEligible (r : RootDomain) (now : Int) (leaseTtl : Int) : Bool :=
  r.status = .pending ||
    (r.status = .inProgress &&
      match r.claimedAt with
      | some t => now - t > leaseTtl
      | none => false)

/-- Total-order comparison on `Int`. -/
def cmpInt (x y : Int) : Ordering :=
  if x < y then .lt else if x = y then .eq else .gt

/-- `queued_at` descending with nulls last: a set timestamp sorts before
null, and larger timestamps sort first. -/
def cmpQueuedAt : Option Int → Option Int → Ordering
  | some x, some y => cmpInt y x
  | some _, none => .lt
  | none, some _ => .gt
  | none, none => .eq

/-- `claimed_at` ascending with nulls first. -/
def cmpClaimedAt : Option Int → Option Int → Ordering
  | none, none => .eq
  | none, some _ => .lt
  | some _, none => .gt
  | some x, some y => cmpInt x y

/-- Total-order comparison on `Nat`, the stable insertion tiebreak. -/
def cmpNat (x y : Nat) : Ordering :=
  if x < y then .lt else if x = y then .eq else .gt

/-- Compare two root domains on `queued_at`. -/
def cmpByQueued (a b : RootDomain) : Ordering :=
  cmpQueuedAt a.queuedAt b.queuedAt

/-- Compare two root domains on `claimed_at`. -/
def cmpByClaimed (a b : RootDomain) : Ordering :=
  cmpClaimedAt a.claimedAt b.claimedAt

/-- Compare two root domains on id, the stable insertion tiebreak. -/
def cmpById (a b : RootDomain) : Ordering :=
  cmpNat a.id b.id

/-- Modelled from the spec: candidate ordering of the claim scan —
`queued_at` descending nulls last, then `claimed_at` ascending nulls
first, then a stable insertion (id) tiebreak. -/
def claimCmp : RootDomain → RootDomain → Ordering :=
  compareLex (compareLex cmpByQueued cmpByClaimed) cmpById

/-- `a` is scheduled no later than `b` in the claim ordering. -/
def claimLE (a b : RootDomain) : Bool := claimCmp a b ≠ .gt

instance : Batteries.TransCmp cmpInt where
  symm x y := by
    unfold cmpInt
    rcases lt_trichotomy x y with h | h | h
    · rw [if_pos h, if_neg (by omega), if_neg (by omega)]
      rfl
    · subst h
      rw [if_neg (by omega), if_pos rfl]
      rfl
    · rw [if_neg (by omega), if_neg (by omega), if_pos h]
      rfl
  le_trans := by
    intro x y z h1 h2
    unfold cmpInt at *
    split_ifs at * <;> simp_all <;> omega

instance : Batteries.TransCmp cmpNat where
  symm x y := by
    unfold cmpNat
    rcases lt_trichotomy x y with h | h | h
    · rw [if_pos h, if_neg (by omega), if_neg (by omega)]
      rfl
    · subst h
      rw [if_neg (by omega), if_pos rfl]
      rfl
    · rw [if_neg (by omega), if_neg (by omega), if_pos h]
      rfl
  le_trans := by
    intro x y z h1 h2
    unfold cmpNat at *
    split_ifs at * <;> simp_all <;> omega

instance : Batteries.TransCmp cmpQueuedAt where
  symm x y := by
    rcases x with _ | x <;> rcases y with _ | y <;>
      first
        | rfl
        | exact @Batteries.OrientedCmp.symm _ cmpInt _ y x
  le_trans := by
    intro x y z h1 h2
    rcases x with _ | x <;> rcases y with _ | y <;> rcases z with _ | z <;>
      simp_all [cmpQueuedAt]
    exact @Batteries.TransCmp.le_trans _ cmpInt _ _ _ _ h2 h1

instance : Batteries.TransCmp cmpClaimedAt where
  symm x y := by
    rcases x with _ | x <;> rcases y with _ | y <;>
      first
        | rfl
        | exact @Batteries.OrientedCmp.symm _ cmpInt _ x y
  le_trans := by
    intro x y z h1 h2
    rcases x with _ | x <;> rcases y with _ | y <;> rcases z with _ | z <;>
      simp_all [cmpClaimedAt]
    exact @Batteries.TransCmp.le_trans _ cmpInt _ _ _ _ h1 h2

instance : Batteries.TransCmp cmpByQueued where
  symm a b := @Batteries.OrientedCmp.symm _ cmpQueuedAt _ a.queuedAt b.queuedAt
  le_trans h1 h2 := @Batteries.TransCmp.le_trans _ cmpQueuedAt _ _ _ _ h1 h2

instance : Batteries.TransCmp cmpByClaimed where
  symm a b := @Batteries.OrientedCmp.symm _ cmpClaimedAt _ a.claimedAt b.claimedAt
  le_trans h1 h2 := @Batteries.TransCmp.le_trans _ cmpClaimedAt _ _ _ _ h1 h2

instance : Batteries.TransCmp cmpById where
  symm a b := @Batteries.OrientedCmp.symm _ cmpNat _ a.id b.id
  le_trans h1 h2 := @Batteries.TransCmp.le_trans _ cmpNat _ _ _ _ h1 h2

instance : Batteries.TransCmp claimCmp :=
  inferInstanceAs
    (Batteries.TransCmp (compareLex (compareLex cmpByQueued cmpByClaimed) cmpById))

/-- The eligible rows in claim order: filter by eligibility, sort by the
claim ordering. -/
def Store.claimCandidates (s : Store) (now : Int) (leaseTtl : Int) :
    List RootDomain :=
  (s.rootDomains.filter (fun r => claimEligible r now leaseTtl)).mergeSort
    claimLE

/-- Mark a root domain as claimed:
`status = InProgress, claimed_by = clientID, claimed_at = now`. -/
def claimRow (clientId : Nat) (now : Int) (r : RootDomain) : RootDomain :=
  { r with status := .inProgress, claimedBy := some clientId,
           claimedAt := some now }

/-- Modelled from the spec: `ClaimBatch(clientID, batchSize)` without
concurrent contention — take up to `batchSize` candidates in claim order
and atomically transition them to claimed. Returns the new store and the
claimed rows (possibly empty; not an error). -/
def Store.claimBatch (s : Store) (clientId : Nat) (batchSize : Nat)
    (now : Int) (leaseTtl : Int) : Store × List RootDomain :=
  let selected := (s.claimCandidates now leaseTtl).take batchSize
  let claimed := selected.map (claimRow clientId now)
  ({ s with rootDomains := s.rootDomains.map (fun r =>
      if selected.any (fun c => c.id = r.id) then claimRow clientId now r
      else r) },
    claimed)

/-- Modelled from the spec: lock-and-skip under concurrency. `owner`
records which of the concurrent in-flight callers holds the row lock of
each candidate row (row-level locks have at most one holder). Caller `i`
claims up to `batchSize` candidates, in claim order, among the rows it
managed to lock, skipping rows locked by others. -/
def Store.claimBatchLocked (s : Store) (owner : Nat → Option Nat) (i : Nat)
    (batchSize : Nat) (now : Int) (leaseTtl : Int) : List RootDomain :=
  (((s.claimCandidates now leaseTtl).filter
      (fun r => owner r.id = some i)).take batchSize).map
    (claimRow i now)

/-- Outcome reported by a worker for a scanned domain. -/
inductive ScanOutcome where
  | success
  | transientFailure
deriving DecidableEq, Repr

/-- Modelled from the spec: applying a reported outcome to an owned row.
Success sets `status = Scanned`; transient failure sets `status = Failed`;
either way the lease fields are released. -/
def applyOutcome (oc : ScanOutcome) (now : Int) (r : RootDomain) :
    RootDomain :=
  match oc with
  | .success =>
    { r with status := .scanned, claimedBy := none, claimedAt := none,
             lastScannedAt := some now }
  | .transientFailure =>
    { r with status := .failed, claimedBy := none, claimedAt := none }

/-- Modelled from the spec: `ReportResult(clientID, domainID, outcome)`
requires `claimed_by == clientID`; otherwise the call is rejected with a
Conflict and nothing is updated. -/
def Store.reportResult (s : Store) (clientId : Nat) (domainId : Nat)
    (oc : ScanOutcome) (now : Int) : Store × Except DbError Unit :=
  if s.rootDomains.any
      (fun r => r.id = domainId && r.claimedBy = some clientId) then
    ({ s with rootDomains := s.rootDomains.map (fun r =>
        if r.id = domainId && r.claimedBy = some clientId then
          applyOutcome oc now r
        else r) },
      .ok ())
  else if s.rootDomains.any (fun r => r.id = domainId) then
    (s, .error .conflict)
  else
    (s, .error .notFound)

/-- Modelled from the spec: `PriorityBump(domainID)` sets
`queued_at = now` unconditionally, regardless of current status. -/
def Store.priorityBump (s : Store) (domainId : Nat) (now : Int) : Store :=
  { s with rootDomains := s.rootDomains.map (fun r =>
      if r.id = domainId then { r with queuedAt := some now } else r) }

/-- Modelled from the spec: `RecordHeartbeat(clientID)` idempotently sets
`last_heartbeat = now`. -/
def Store.recordHeartbeat (s : Store) (clientId : Nat) (now : Int) :
    Store :=
  { s with clients := s.clients.map (fun c =>
      if c.id = clientId then { c with lastHeartbeat := some now } else c) }

/-- Modelled from the spec: Failed rows revert to Pending after a fixed
cooldown, releasing nothing else. -/
def Store.reclaimFailed (s : Store) : Store :=
  { s with rootDomains := s.rootDomains.map (fun r =>
      if r.status = .failed then { r with status := .pending } else r) }

/-- `CreateDomainSet(name, source)`: inserts a new `domain_sets` row. -/
def Store.createDomainSet (s : Store) (name source : String) (now : Int) :
    Store :=
  { s with
      domainSets := s.domainSets ++
        [{ id := s.nextId, name := name, source := source, createdAt := now }],
      nextId := s.nextId + 1 }

/-- Modelled from the spec: `Register(name)` persists a new client with
only the credential hash; `last_heartbeat` starts null. -/
def Store.createClient (s : Store) (name tokenHash : String) (now : Int) :
    Store :=
  { s with
      clients := s.clients ++
        [{ id := s.nextId, name := name, tokenHash := tokenHash,
           createdAt := now, lastHeartbeat := none }],
      nextId := s.nextId + 1 }

/-- `DeleteClient(id)`: removes the client row; leases held by the deleted
client are not released (they expire naturally). -/
def Store.deleteClient (s : Store) (clientId : Nat) : Store :=
  { s with clients := s.clients.filter (fun c => c.id ≠ clientId) }

/-- The store's mutating operations, for reachability reasoning. -/
inductive Op where
  | claimBatch (clientId batchSize : Nat) (now leaseTtl : Int)
  | reportResult (clientId domainId : Nat) (oc : ScanOutcome) (now : Int)
  | priorityBump (domainId : Nat) (now : Int)
  | recordHeartbeat (clientId : Nat) (now : Int)
  | insertDomains (setId : Nat) (domains : List String)
  | deleteDomainSet (setId : Nat)
  | createDomainSet (name source : String) (now : Int)
  | createClient (name tokenHash : String) (now : Int)
  | deleteClient (clientId : Nat)
  | reclaimFailed

/-- Apply one operation to the store (a failed delete leaves it
unchanged). -/
def Store.step (s : Store) : Op → Store
  | .claimBatch c b now ttl => (s.claimBatch c b now ttl).1
  | .reportResult c d oc now => (s.reportResult c d oc now).1
  | .priorityBump d now => s.priorityBump d now
  | .recordHeartbeat c now => s.recordHeartbeat c now
  | .insertDomains setId ds => (s.insertDomainsToSet setId ds).1
  | .deleteDomainSet setId =>
    match s.deleteDomainSet setId with
    | .ok s1 => s1
    | .error _ => s
  | .createDomainSet n src now => s.createDomainSet n src now
  | .createClient n h now => s.createClient n h now
  | .deleteClient c => s.deleteClient c
  | .reclaimFailed => s.reclaimFailed

/-- The empty initial store. -/
def initialStore : Store :=
  { domainSets := [], rootDomains := [], clients := [], nextId := 0 }

/-- The store reached by running a sequence of operations from the empty
store. -/
def runOps (ops : List Op) : Store :=
  ops.foldl Store.step initialStore

/-- The RootDomain invariant (spec §3): `claimed_by` is non-null iff
`status = InProgress`, and `claimed_at` is non-null iff `claimed_by` is. -/
def rootInv (r : RootDomain) : Prop :=
  (r.claimedBy.isSome ↔ r.status = .inProgress) ∧
    (r.claimedAt.isSome ↔ r.claimedBy.isSome)

/-- Every root domain row of the store satisfies the invariant. -/
def storeInv (s : Store) : Prop :=
  ∀ r ∈ s.rootDomains, rootInv r

/-- Whether a row with the given domain name exists (the uniqueness
constraint consulted by `ON CONFLICT (domain) DO NOTHING`). -/
def Store.hasDomain (s : Store) (n : String) : Bool :=
  s.rootDomains.any (fun rd => rd.domain = n)

/-- Number of persisted rows carrying the given domain name. -/
def Store.countDomain (s : Store) (n : String) : Nat :=
  (s.rootDomains.filter (fun rd => rd.domain = n)).length

/-- The `root_domains.domain` uniqueness constraint: pairwise distinct
domain names. -/
def nodupNames (s : Store) : Prop :=
  (s.rootDomains.map RootDomain.domain).Nodup

/-! ## Sample data for witnesses -/

/-- A sample store: one domain set (id 1) with two domains, plus an
unrelated set (id 2) with one domain. -/
def sampleStore : Store :=
  { domainSets :=
      [ { id := 1, name := "com zone", source := "CZDS", createdAt := 5 },
        { id := 2, name := "org zone", source := "CZDS", createdAt := 6 } ],
    rootDomains :=
      [ newRootDomain 10 "a.example" 1,
        newRootDomain 11 "b.example" 1,
        newRootDomain 12 "c.example" 2 ],
    clients := [],
    nextId := 13 }

/-- A sample in-progress row: claimed by client 7 at time 0. -/
def sampleClaimedRow : RootDomain :=
  claimRow 7 0 (newRootDomain 3 "c.example" 1)

/-- The exec-failure pattern used by the C9 witness: the third exec (index
2) returns a database error. -/
def sampleFails (i : Nat) : Bool := i = 2

/-- The sample store after deleting domain set 1. -/
def sampleStoreDel : Store :=
  { domainSets :=
      [ { id := 2, name := "org zone", source := "CZDS", createdAt := 6 } ],
    rootDomains := [ newRootDomain 12 "c.example" 2 ],
    clients := [],
    nextId := 13 }

/-- The lock assignment used by the C2 witness: caller 0 locked row 10,
caller 1 locked rows 11 and 12. -/
def sampleOwner (rowId : Nat) : Option Nat :=
  if rowId = 10 then some 0 else if rowId = 11 then some 1 else
    if rowId = 12 then some 1 else none

/-- A store holding one domain claimed by client 7. -/
def sampleClaimedStore : Store :=
  { domainSets :=
      [ { id := 1, name := "com zone", source := "CZDS", createdAt := 5 } ],
    rootDomains := [ sampleClaimedRow ],
    clients := [],
    nextId := 30 }

/-- The bumped Pending row of the C7 witness store. -/
def bumpedRow : RootDomain :=
  { newRootDomain 20 "b.example" 1 with queuedAt := some 50 }

/-- The unbumped Pending row of the C7 witness store. -/
def plainRow : RootDomain := newRootDomain 21 "a.example" 1

/-- A store with exactly one bumped and one unbumped Pending domain. -/
def bumpStore : Store :=
  { domainSets :=
      [ { id := 1, name := "com zone", source := "CZDS", createdAt := 5 } ],
    rootDomains := [plainRow, bumpedRow],
    clients := [],
    nextId := 22 }

/-! ## Lemmas about domain insertion -/

theorem insertDomainExec_of_hasDomain {s : Store} {d : String} (setId : Nat)
    (h : s.hasDomain d = true) : s.insertDomainExec setId d = (s, 0) := by
  unfold Store.hasDomain at h
  simp [Store.insertDomainExec, h]

theorem insertDomainExec_of_not_hasDomain {s : Store} {d : String}
    (setId : Nat) (h : s.hasDomain d = false) :
    s.insertDomainExec setId d =
      ({ s with
          rootDomains := s.rootDomains ++ [newRootDomain s.nextId d setId],
          nextId := s.nextId + 1 }, 1) := by
  unfold Store.hasDomain at h
  simp [Store.insertDomainExec, h]

theorem hasDomain_insertDomainExec (s : Store) (setId : Nat) (d n : String) :
    (s.insertDomainExec setId d).1.hasDomain n =
      (s.hasDomain n || decide (n = d)) := by
  cases h : s.hasDomain d
  · rw [insertDomainExec_of_not_hasDomain setId h]
    simp [Store.hasDomain, newRootDomain, eq_comm]
  · rw [insertDomainExec_of_hasDomain setId h]
    by_cases hn : n = d
    · subst hn
      simp [h]
    · simp [hn]

theorem mem_insertDomainExec_of_mem {s : Store} {rd : RootDomain}
    (setId : Nat) (d : String) (h : rd ∈ s.rootDomains) :
    rd ∈ (s.insertDomainExec setId d).1.rootDomains := by
  unfold Store.insertDomainExec
  split <;> simp [h]

theorem mem_insertDomainExec {s : Store} {rd : RootDomain} {setId : Nat}
    {d : String} (h : rd ∈ (s.insertDomainExec setId d).1.rootDomains) :
    rd ∈ s.rootDomains ∨ rd = newRootDomain s.nextId d setId := by
  unfold Store.insertDomainExec at h
  split at h <;> simp_all

theorem nodupNames_insertDomainExec {s : Store} (setId : Nat) (d : String)
    (h : nodupNames s) : nodupNames (s.insertDomainExec setId d).1 := by
  cases hd : s.hasDomain d
  · rw [insertDomainExec_of_not_hasDomain setId hd]
    unfold nodupNames at h ⊢
    unfold Store.hasDomain at hd
    simp only [List.any_eq_false, decide_eq_true_eq] at hd
    rw [show ({ s with
          rootDomains := s.rootDomains ++ [newRootDomain s.nextId d setId],
          nextId := s.nextId + 1 } : Store).rootDomains =
        s.rootDomains ++ [newRootDomain s.nextId d setId] from rfl]
    rw [List.map_append]
    simp only [newRootDomain, List.map_cons, List.map_nil]
    rw [List.nodup_append]
    refine ⟨h, by simp, ?_⟩
    intro a ha hb
    simp only [List.mem_singleton] at hb
    subst hb
    simp only [List.mem_map] at ha
    obtain ⟨rd, hrd, hdom⟩ := ha
    exact hd rd hrd hdom
  · rw [insertDomainExec_of_hasDomain setId hd]
    exact h

theorem filter_insertDomainExec {s : Store} {n : String} (setId : Nat)
    (d : String) (h : s.hasDomain n = true) :
    ((s.insertDomainExec setId d).1.rootDomains.filter
        fun rd => rd.domain = n) =
      s.rootDomains.filter (fun rd => rd.domain = n) := by
  cases hd : s.hasDomain d
  · rw [insertDomainExec_of_not_hasDomain setId hd]
    have hne : ¬ ((newRootDomain s.nextId d setId).domain = n) := by
      simp only [newRootDomain]
      intro he
      rw [he] at hd
      rw [h] at hd
      simp at hd
    simp [List.filter_append, hne]
  · rw [insertDomainExec_of_hasDomain setId hd]

theorem insertDomainsToSet_fst_cons (s : Store) (setId : Nat) (d : String)
    (rest : List String) :
    (s.insertDomainsToSet setId (d :: rest)).1 =
      ((s.insertDomainExec setId d).1.insertDomainsToSet setId rest).1 := by
  simp only [Store.insertDomainsToSet]
  split <;> rfl

theorem insertDomainsToSet_counts (setId : Nat) :
    ∀ (ns : List String) (s : Store),
      (s.insertDomainsToSet setId ns).2.1 +
        (s.insertDomainsToSet setId ns).2.2 = ns.length
  | [], _ => rfl
  | d :: rest, s => by
    simp only [Store.insertDomainsToSet]
    split <;> simp only [List.length_cons] <;>
      have := insertDomainsToSet_counts setId rest
        (s.insertDomainExec setId d).1 <;> omega

theorem hasDomain_insertDomainsToSet (setId : Nat) (n : String) :
    ∀ (ns : List String) (s : Store),
      (s.insertDomainsToSet setId ns).1.hasDomain n =
        (s.hasDomain n || decide (n ∈ ns))
  | [], s => by simp [Store.insertDomainsToSet]
  | d :: rest, s => by
    rw [insertDomainsToSet_fst_cons,
      hasDomain_insertDomainsToSet setId n rest,
      hasDomain_insertDomainExec]
    cases hn : s.hasDomain n <;> simp [List.mem_cons, or_comm]

theorem mem_insertDomainsToSet_of_mem (setId : Nat) {rd : RootDomain} :
    ∀ (ns : List String) (s : Store), rd ∈ s.rootDomains →
      rd ∈ (s.insertDomainsToSet setId ns).1.rootDomains
  | [], s, h => h
  | d :: rest, s, h => by
    rw [insertDomainsToSet_fst_cons]
    exact mem_insertDomainsToSet_of_mem setId rest _
      (mem_insertDomainExec_of_mem setId d h)

theorem mem_insertDomainsToSet (setId : Nat) {rd : RootDomain} :
    ∀ (ns : List String) (s : Store),
      rd ∈ (s.insertDomainsToSet setId ns).1.rootDomains →
        rd ∈ s.rootDomains ∨ ∃ i o, rd = newRootDomain i o setId
  | [], s, h => .inl h
  | d :: rest, s, h => by
    rw [insertDomainsToSet_fst_cons] at h
    rcases mem_insertDomainsToSet setId rest _ h with h1 | h1
    · rcases mem_insertDomainExec h1 with h2 | h2
      · exact .inl h2
      · exact .inr ⟨s.nextId, d, h2⟩
    · exact .inr h1

theorem nodupNames_insertDomainsToSet (setId : Nat) :
    ∀ (ns : List String) (s : Store), nodupNames s →
      nodupNames (s.insertDomainsToSet setId ns).1
  | [], _, h => h
  | d :: rest, s, h => by
    rw [insertDomainsToSet_fst_cons]
    exact nodupNames_insertDomainsToSet setId rest _
      (nodupNames_insertDomainExec setId d h)

theorem filter_insertDomainsToSet (setId : Nat) {n : String} :
    ∀ (ns : List String) (s : Store), s.hasDomain n = true →
      ((s.insertDomainsToSet setId ns).1.rootDomains.filter
          fun rd => rd.domain = n) =
        s.rootDomains.filter (fun rd => rd.domain = n)
  | [], _, _ => rfl
  | d :: rest, s, h => by
    rw [insertDomainsToSet_fst_cons]
    rw [filter_insertDomainsToSet setId rest _
      (by rw [hasDomain_insertDomainExec, h, Bool.true_or])]
    exact filter_insertDomainExec setId d h

theorem length_filter_domain_eq_one {l : List RootDomain} {n : String}
    (hnd : (l.map RootDomain.domain).Nodup)
    (h : (l.any fun rd => rd.domain = n) = true) :
    (l.filter fun rd => rd.domain = n).length = 1 := by
  induction l with
  | nil => simp at h
  | cons rd tl ih =>
    simp only [List.map_cons, List.nodup_cons] at hnd
    by_cases hdom : rd.domain = n
    · rw [List.filter_cons_of_pos (by simp [hdom])]
      rw [List.filter_eq_nil_iff.2 ?_]
      · rfl
      · intro x hx
        simp only [decide_eq_true_eq]
        intro hxn
        exact hnd.1 (by
          rw [← hxn] at hdom
          exact hdom ▸ List.mem_map.2 ⟨x, hx, rfl⟩)
    · rw [List.filter_cons_of_neg (by simp [hdom])]
      apply ih hnd.2
      simp only [List.any_cons, Bool.or_eq_true, decide_eq_true_eq] at h
      rcases h with h | h
      · exact absurd h hdom
      · exact h

theorem countDomain_eq_one {s : Store} {n : String} (hnd : nodupNames s)
    (h : s.hasDomain n = true) : s.countDomain n = 1 :=
  length_filter_domain_eq_one hnd h

theorem insertDomainsToSet_counts_nodup (setId : Nat) :
    ∀ (ns : List String) (s : Store), ns.Nodup →
      (s.insertDomainsToSet setId ns).2.2 =
        (ns.filter fun n => s.hasDomain n).length ∧
      (s.insertDomainsToSet setId ns).2.1 =
        (ns.filter fun n => !s.hasDomain n).length
  | [], s, _ => by simp [Store.insertDomainsToSet]
  | d :: rest, s, hnd => by
    obtain ⟨hdni, hrest⟩ := List.nodup_cons.1 hnd
    cases hd : s.hasDomain d
    · have h2 : (s.insertDomainExec setId d).2 = 1 := by
        rw [insertDomainExec_of_not_hasDomain setId hd]
      obtain ⟨ih2, ih1⟩ := insertDomainsToSet_counts_nodup setId rest
        (s.insertDomainExec setId d).1 hrest
      have hsame : ∀ a ∈ rest,
          (s.insertDomainExec setId d).1.hasDomain a = s.hasDomain a := by
        intro a ha
        rw [hasDomain_insertDomainExec]
        have hne : ¬ (a = d) := fun he => hdni (he ▸ ha)
        simp [hne]
      simp only [Store.insertDomainsToSet, h2]
      constructor
      · rw [List.filter_cons_of_neg (by simp [hd])]
        simp only [gt_iff_lt, Nat.zero_lt_one, if_true]
        rw [ih2]
        congr 1
        exact List.filter_congr (fun a ha => by rw [hsame a ha])
      · rw [List.filter_cons_of_pos (by simp [hd])]
        simp only [gt_iff_lt, Nat.zero_lt_one, if_true]
        rw [List.length_cons, ih1]
        congr 2
        exact List.filter_congr (fun a ha => by rw [hsame a ha])
    · have hex := insertDomainExec_of_hasDomain setId hd
      have h2 : (s.insertDomainExec setId d).2 = 0 := by rw [hex]
      have h1 : (s.insertDomainExec setId d).1 = s := by rw [hex]
      obtain ⟨ih2, ih1⟩ :=
        insertDomainsToSet_counts_nodup setId rest s hrest
      simp only [Store.insertDomainsToSet, h2, h1]
      constructor
      · rw [List.filter_cons_of_pos (by simp [hd])]
        simp only [gt_iff_lt, Nat.lt_irrefl, if_false]
        rw [List.length_cons, ih2]
      · rw [List.filter_cons_of_neg (by simp [hd])]
        simp only [gt_iff_lt, Nat.lt_irrefl, if_false]
        rw [ih1]

theorem insertDomainsToSet_dup_pos (setId : Nat) :
    ∀ (ns : List String) (s : Store),
      (∃ n ∈ ns, s.hasDomain n = true) →
      (s.insertDomainsToSet setId ns).2.2 ≥ 1
  | [], _, h => by simp at h
  | d :: rest, s, h => by
    cases hd : s.hasDomain d
    · have h2 : (s.insertDomainExec setId d).2 = 1 := by
        rw [insertDomainExec_of_not_hasDomain setId hd]
      obtain ⟨n, hn, hhn⟩ := h
      rcases List.mem_cons.1 hn with rfl | hn'
      · rw [hhn] at hd
        cases hd
      · have hmono : (s.insertDomainExec setId d).1.hasDomain n = true := by
          rw [hasDomain_insertDomainExec, hhn, Bool.true_or]
        have hrec := insertDomainsToSet_dup_pos setId rest
          (s.insertDomainExec setId d).1 ⟨n, hn', hmono⟩
        simp only [Store.insertDomainsToSet, h2, gt_iff_lt, Nat.zero_lt_one,
          if_true]
        exact hrec
    · have h2 : (s.insertDomainExec setId d).2 = 0 := by
        rw [insertDomainExec_of_hasDomain setId hd]
      simp only [Store.insertDomainsToSet, h2, gt_iff_lt, Nat.lt_irrefl,
        if_false]
      omega

/-! ## C4: repeated insertion reports duplicates, never duplicates rows -/

/-- C4: after a first `InsertDomainsToSet` call, a second call with an
overlapping, repetition-free name list counts exactly the names already
present as duplicates and the fresh names as inserted (so the two counts
partition the input), keeps domain names unique with exactly one row per
mentioned name, and does not touch the rows of already-present names. -/
theorem claim4_insert_twice_duplicates (s s1 s2 : Store) (setA setB : Nat)
    (ns1 ns2 : List String) (i1 d1 i2 d2 : Nat)
    (hnd : nodupNames s) (hns2 : ns2.Nodup)
    (h1 : s.insertDomainsToSet setA ns1 = (s1, i1, d1))
    (h2 : s1.insertDomainsToSet setB ns2 = (s2, i2, d2)) :
    d2 = (ns2.filter fun n => s1.hasDomain n).length ∧
    i2 = (ns2.filter fun n => !s1.hasDomain n).length ∧
    i2 + d2 = ns2.length ∧
    nodupNames s2 ∧
    (∀ n ∈ ns2, s2.countDomain n = 1) ∧
    (∀ n ∈ ns2, s1.hasDomain n = true →
      s2.rootDomains.filter (fun rd => rd.domain = n) =
        s1.rootDomains.filter (fun rd => rd.domain = n)) := by
  have hnd1 : nodupNames s1 := by
    have h := nodupNames_insertDomainsToSet setA ns1 s hnd
    rw [h1] at h
    exact h
  have hnd2 : nodupNames s2 := by
    have h := nodupNames_insertDomainsToSet setB ns2 s1 hnd1
    rw [h2] at h
    exact h
  have hcounts := insertDomainsToSet_counts_nodup setB ns2 s1 hns2
  rw [h2] at hcounts
  have hpart := insertDomainsToSet_counts setB ns2 s1
  rw [h2] at hpart
  refine ⟨hcounts.1, hcounts.2, hpart, hnd2, ?_, ?_⟩
  · intro n hn
    apply countDomain_eq_one hnd2
    have h := hasDomain_insertDomainsToSet setB n ns2 s1
    rw [h2] at h
    rw [h]
    simp [hn]
  · intro n hn hhas
    have h := filter_insertDomainsToSet setB ns2 s1 hhas
    rw [h2] at h
    exact h

/-- Witness for C4: inserting `["a.example", "b.example"]` into the empty
store and then `["b.example", "c.example"]` yields one duplicate
(`b.example`), one insert (`c.example`), a partition `1 + 1 = 2`, and a
single persisted row for `b.example`. -/
theorem claim4_witness :
    (((initialStore.insertDomainsToSet 1
        ["a.example", "b.example"]).1.insertDomainsToSet 1
        ["b.example", "c.example"]).2.2 = 1 ∧
     ((initialStore.insertDomainsToSet 1
        ["a.example", "b.example"]).1.insertDomainsToSet 1
        ["b.example", "c.example"]).2.1 = 1 ∧
     ((initialStore.insertDomainsToSet 1
        ["a.example", "b.example"]).1.insertDomainsToSet 1
        ["b.example", "c.example"]).2.1 +
       ((initialStore.insertDomainsToSet 1
          ["a.example", "b.example"]).1.insertDomainsToSet 1
          ["b.example", "c.example"]).2.2 = 2 ∧
     (((initialStore.insertDomainsToSet 1
        ["a.example", "b.example"]).1.insertDomainsToSet 1
        ["b.example", "c.example"]).1.countDomain "b.example" = 1)) := by
  obtain ⟨hd2, hi2, hpart, _, hcount, _⟩ :=
    claim4_insert_twice_duplicates initialStore
      (initialStore.insertDomainsToSet 1 ["a.example", "b.example"]).1
      ((initialStore.insertDomainsToSet 1
          ["a.example", "b.example"]).1.insertDomainsToSet 1
          ["b.example", "c.example"]).1
      1 1 ["a.example", "b.example"] ["b.example", "c.example"]
      (initialStore.insertDomainsToSet 1 ["a.example", "b.example"]).2.1
      (initialStore.insertDomainsToSet 1 ["a.example", "b.example"]).2.2
      ((initialStore.insertDomainsToSet 1
          ["a.example", "b.example"]).1.insertDomainsToSet 1
          ["b.example", "c.example"]).2.1
      ((initialStore.insertDomainsToSet 1
          ["a.example", "b.example"]).1.insertDomainsToSet 1
          ["b.example", "c.example"]).2.2
      (by unfold nodupNames initialStore; decide) (by decide) rfl rfl
  refine ⟨?_, ?_, ?_, ?_⟩
  · rw [hd2]
    decide
  · rw [hi2]
    decide
  · rw [hpart]
    rfl
  · exact hcount "b.example" (by decide)

/-! ## C10: inserting an existing name into another set changes nothing -/

/-- C10: when a row with domain name `rd.domain` already exists, an
`InsertDomainsToSet` call for any set `setB` whose list mentions that name
keeps the original row (all fields, `domain_set_id` included) as the only
row with that name, and counts at least one duplicate. -/
theorem claim10_insert_existing_name_frame (s : Store) (rd : RootDomain)
    (setB : Nat) (ns : List String) (hnd : nodupNames s)
    (hrd : rd ∈ s.rootDomains) (hmem : rd.domain ∈ ns) :
    rd ∈ (s.insertDomainsToSet setB ns).1.rootDomains ∧
    (s.insertDomainsToSet setB ns).1.rootDomains.filter
        (fun r => r.domain = rd.domain) = [rd] ∧
    (s.insertDomainsToSet setB ns).1.countDomain rd.domain = 1 ∧
    (s.insertDomainsToSet setB ns).2.2 ≥ 1 := by
  have hhas : s.hasDomain rd.domain = true :=
    List.any_eq_true.2 ⟨rd, hrd, by simp⟩
  have hfilter_before :
      s.rootDomains.filter (fun r => r.domain = rd.domain) = [rd] := by
    have hlen : (s.rootDomains.filter
        fun r => r.domain = rd.domain).length = 1 :=
      length_filter_domain_eq_one hnd hhas
    have hmemf : rd ∈ s.rootDomains.filter (fun r => r.domain = rd.domain) :=
      List.mem_filter.2 ⟨hrd, by simp⟩
    obtain ⟨x, hx⟩ := List.length_eq_one.1 hlen
    rw [hx] at hmemf ⊢
    simp only [List.mem_singleton] at hmemf
    rw [hmemf]
  have hframe := filter_insertDomainsToSet setB ns s hhas
  refine ⟨?_, ?_, ?_, ?_⟩
  · exact mem_insertDomainsToSet_of_mem setB ns s hrd
  · rw [hframe, hfilter_before]
  · unfold Store.countDomain
    rw [hframe, hfilter_before]
    rfl
  · exact insertDomainsToSet_dup_pos setB ns s ⟨rd.domain, hmem, hhas⟩

/-- Witness for C10: `a.example` exists under set 1 in the sample store;
inserting it into set 2 keeps the original row, exactly one row with the
name, and reports a duplicate. -/
theorem claim10_witness :
    newRootDomain 10 "a.example" 1 ∈
      (sampleStore.insertDomainsToSet 2 ["a.example"]).1.rootDomains ∧
    (sampleStore.insertDomainsToSet 2 ["a.example"]).1.countDomain
      "a.example" = 1 ∧
    (sampleStore.insertDomainsToSet 2 ["a.example"]).2.2 ≥ 1 := by
  obtain ⟨hmem, _, hcount, hdup⟩ :=
    claim10_insert_existing_name_frame sampleStore
      (newRootDomain 10 "a.example" 1) 2 ["a.example"]
      (by unfold nodupNames sampleStore; decide) (by decide) (by decide)
  exact ⟨hmem, hcount, hdup⟩

/-! ## C9: insertion is not atomic across the input list -/

theorem insertDomainsToSetFallible_eq (setId : Nat) (fails : Nat → Bool) :
    ∀ (ns : List String) (s : Store) (k idx : Nat),
      fails (idx + k) = true → (∀ j, j < k → fails (idx + j) = false) →
      k < ns.length →
      s.insertDomainsToSetFallible setId fails idx ns =
        ((s.insertDomainsToSet setId (ns.take k)).1,
         (s.insertDomainsToSet setId (ns.take k)).2.1,
         (s.insertDomainsToSet setId (ns.take k)).2.2, true)
  | [], _, k, _, _, _, hlen => by simp at hlen
  | d :: rest, s, 0, idx, hk, _, _ => by
    simp only [Nat.add_zero] at hk
    simp [Store.insertDomainsToSetFallible, hk, Store.insertDomainsToSet]
  | d :: rest, s, k' + 1, idx, hk, hj, hlen => by
    have h0 : fails idx = false := by
      have h := hj 0 (Nat.succ_pos k')
      simpa using h
    have hk' : fails (idx + 1 + k') = true := by
      rw [show idx + 1 + k' = idx + (k' + 1) by omega]
      exact hk
    have hj' : ∀ j, j < k' → fails (idx + 1 + j) = false := by
      intro j hjk
      rw [show idx + 1 + j = idx + (j + 1) by omega]
      exact hj (j + 1) (by omega)
    have hlen' : k' < rest.length := by
      simpa using hlen
    have ih := insertDomainsToSetFallible_eq setId fails rest
      (s.insertDomainExec setId d).1 k' (idx + 1) hk' hj' hlen'
    simp only [Store.insertDomainsToSetFallible, h0, Bool.false_eq_true,
      if_false, ih, List.take_succ_cons, Store.insertDomainsToSet]
    by_cases hgt : (s.insertDomainExec setId d).2 > 0 <;> simp [hgt]

/-- C9: when the `k`-th database exec fails (and none before it do),
`InsertDomainsToSet` stops with an error, the inserts of the first `k`
names remain persisted exactly as if only those names had been passed,
and the returned counts cover only those first `k` names. -/
theorem claim9_insert_not_atomic (s : Store) (setId : Nat)
    (ns : List String) (fails : Nat → Bool) (k : Nat)
    (hk : fails k = true) (hfirst : ∀ j, j < k → fails j = false)
    (hlen : k < ns.length) :
    s.insertDomainsToSetFallible setId fails 0 ns =
      ((s.insertDomainsToSet setId (ns.take k)).1,
       (s.insertDomainsToSet setId (ns.take k)).2.1,
       (s.insertDomainsToSet setId (ns.take k)).2.2, true) := by
  apply insertDomainsToSetFallible_eq setId fails ns s k 0
  · simpa using hk
  · intro j hjk
    simpa using hfirst j hjk
  · exact hlen

/-- Witness for C9: with the third exec failing, only the first two names
are persisted and counted, and the error flag is set. -/
theorem claim9_witness :
    initialStore.insertDomainsToSetFallible 1 sampleFails 0
        ["a.example", "b.example", "c.example"] =
      ((initialStore.insertDomainsToSet 1
          (["a.example", "b.example", "c.example"].take 2)).1,
       (initialStore.insertDomainsToSet 1
          (["a.example", "b.example", "c.example"].take 2)).2.1,
       (initialStore.insertDomainsToSet 1
          (["a.example", "b.example", "c.example"].take 2)).2.2, true) :=
  claim9_insert_not_atomic initialStore 1
    ["a.example", "b.example", "c.example"] sampleFails 2
    (by decide) (by decide) (by decide)

/-! ## C8: heartbeat liveness classification -/

/-- C8: a client is classified alive exactly when `last_heartbeat` is
non-null and `now − last_heartbeat` is strictly below the timeout; a
client with null `last_heartbeat` is never alive (the existential is then
unsatisfiable). -/
theorem claim8_client_is_alive_iff (c : ScannerClient) (now timeout : Int) :
    clientIsAlive c now timeout = true ↔
      ∃ t, c.lastHeartbeat = some t ∧ now - t < timeout := by
  cases h : c.lastHeartbeat <;> simp [clientIsAlive, h]

/-! ## C1: deleting a domain set cascades to its domains -/

/-- C1: for an existing domain set id, `DeleteDomainSet` succeeds, and the
store a successful call leaves behind keeps exactly the root domains that
did not belong to the deleted set: none of the set's domains persist and
no remaining row references the set. -/
theorem claim1_delete_domain_set_cascades (s : Store) (setId : Nat)
    (h : ∃ ds ∈ s.domainSets, ds.id = setId) :
    (s.deleteDomainSet setId).isOk = true ∧
      ∀ s', s.deleteDomainSet setId = .ok s' →
        ∀ rd : RootDomain, rd ∈ s'.rootDomains ↔
          rd ∈ s.rootDomains ∧ rd.domainSetId ≠ setId := by
  obtain ⟨ds, hds, hid⟩ := h
  have hany : (s.domainSets.any fun d => d.id = setId) = true := by
    simp only [List.any_eq_true]
    exact ⟨ds, hds, by simp [hid]⟩
  have hdel : s.deleteDomainSet setId = .ok { s with
      domainSets := s.domainSets.filter (fun d => d.id ≠ setId),
      rootDomains :=
        s.rootDomains.filter (fun rd => rd.domainSetId ≠ setId) } := by
    simp only [Store.deleteDomainSet, hany, if_true]
  refine ⟨by rw [hdel]; rfl, ?_⟩
  intro s' hs' rd
  rw [hdel] at hs'
  obtain rfl := Except.ok.inj hs' 
  simp [List.mem_filter]

/-- Witness for C1 at the sample store: deleting set 1 succeeds, removes
its domain `a.example`, and keeps the domain of set 2. -/
theorem claim1_witness :
    (sampleStore.deleteDomainSet 1).isOk = true ∧
      (newRootDomain 10 "a.example" 1 ∈ sampleStoreDel.rootDomains ↔
        newRootDomain 10 "a.example" 1 ∈ sampleStore.rootDomains ∧
          (newRootDomain 10 "a.example" 1).domainSetId ≠ 1) := by
  have key := claim1_delete_domain_set_cascades sampleStore 1
    ⟨{ id := 1, name := "com zone", source := "CZDS", createdAt := 5 },
      by decide, rfl⟩
  exact ⟨key.1, key.2 sampleStoreDel rfl
    (newRootDomain 10 "a.example" 1)⟩

/-! ## C3: lease expiry boundary -/

/-- C3 counterexample: a domain claimed at `t0 = 0` with `lease_ttl = 60`
is, contrary to the claim, not yet eligible for reclaim at time 60 even
though `60 ≥ t0 + ttl`: the scan condition is the strict
`now − claimed_at > lease_ttl`. -/
theorem claim3_counterexample :
    sampleClaimedRow.claimedAt = some 0 ∧
      sampleClaimedRow.status = .inProgress ∧
      (60 : Int) ≥ 0 + 60 ∧
      claimEligible sampleClaimedRow 60 60 = false := by
  decide

/-- C3 (amended): a domain claimed at `t0` under `lease_ttl = ttl` is
eligible for reclaim exactly at the times strictly after `t0 + ttl`, and
never at or before `t0 + ttl`. -/
theorem claim3_lease_reclaim_iff (r : RootDomain) (x : Nat)
    (t0 ttl now : Int) :
    claimEligible (claimRow x t0 r) now ttl = true ↔ now > t0 + ttl := by
  simp only [claimEligible, claimRow]
  simp
  omega

/-! ## C2: concurrent claims are disjoint -/

/-- C2: two concurrent `ClaimBatch` callers, whatever rows each managed to
lock (a row lock has a single holder), receive batches over disjoint sets
of domains. -/
theorem claim2_concurrent_claims_disjoint (s : Store)
    (owner : Nat → Option Nat) (i j b1 b2 : Nat) (now ttl : Int)
    (hij : i ≠ j) :
    (s.claimBatchLocked owner i b1 now ttl).map RootDomain.id ∩
      (s.claimBatchLocked owner j b2 now ttl).map RootDomain.id = [] := by
  rw [List.eq_nil_iff_forall_not_mem]
  intro d hd
  rw [List.mem_inter_iff] at hd
  obtain ⟨h1, h2⟩ := hd
  simp only [Store.claimBatchLocked, List.mem_map] at h1 h2
  obtain ⟨r1, hr1, hid1⟩ := h1
  obtain ⟨r2, hr2, hid2⟩ := h2
  obtain ⟨q1, hq1, rfl⟩ := hr1
  obtain ⟨q2, hq2, rfl⟩ := hr2
  have ho1 := (List.mem_filter.1 (List.take_subset _ _ hq1)).2
  have ho2 := (List.mem_filter.1 (List.take_subset _ _ hq2)).2
  simp only [decide_eq_true_eq] at ho1 ho2
  have hq : q1.id = q2.id := by
    have e1 : (claimRow i now q1).id = q1.id := rfl
    have e2 : (claimRow j now q2).id = q2.id := rfl
    rw [e1] at hid1
    rw [e2] at hid2
    rw [hid1, hid2]
  have : some i = some j := by
    rw [← ho1, hq]
    exact ho2
  exact hij (Option.some.inj this)

/-- Witness for C2: with two eligible rows split between callers 0 and 1,
their claimed id sets are disjoint. -/
theorem claim2_witness :
    (sampleStore.claimBatchLocked sampleOwner 0 5 100 60).map
        RootDomain.id ∩
      (sampleStore.claimBatchLocked sampleOwner 1 5 100 60).map
        RootDomain.id = [] :=
  claim2_concurrent_claims_disjoint sampleStore sampleOwner 0 1 5 5 100 60
    (by decide)

/-! ## C5: reports from a non-owning client are rejected unchanged -/

/-- C5: when every row with the reported domain id is claimed by client
`x`, a `ReportResult` from a different client `y` returns a Conflict and
leaves the store — in particular the domain's status, claimed_by and
claimed_at — exactly as it was. -/
theorem claim5_report_from_nonowner_conflict (s : Store)
    (x y domainId : Nat) (oc : ScanOutcome) (now : Int)
    (hown : ∀ r ∈ s.rootDomains, r.id = domainId → r.claimedBy = some x)
    (hex : ∃ r ∈ s.rootDomains, r.id = domainId) (hxy : y ≠ x) :
    s.reportResult y domainId oc now = (s, .error .conflict) := by
  have hA : (s.rootDomains.any fun r =>
      r.id = domainId && r.claimedBy = some y) = false := by
    rw [List.any_eq_false]
    intro r hr
    simp only [Bool.and_eq_true, decide_eq_true_eq, not_and]
    intro hid hcb
    rw [hown r hr hid] at hcb
    exact hxy (Option.some.inj hcb).symm
  have hB : (s.rootDomains.any fun r => r.id = domainId) = true := by
    rw [List.any_eq_true]
    obtain ⟨r, hr, hid⟩ := hex
    exact ⟨r, hr, by simp [hid]⟩
  simp [Store.reportResult, hA, hB]

/-- Witness for C5: client 8 reporting on the domain claimed by client 7
gets a Conflict and the store is returned unchanged. -/
theorem claim5_witness :
    sampleClaimedStore.reportResult 8 3 ScanOutcome.success 100 =
      (sampleClaimedStore, .error .conflict) :=
  claim5_report_from_nonowner_conflict sampleClaimedStore 7 8 3
    ScanOutcome.success 100 (by decide) (by decide) (by decide)

/-! ## C6: the RootDomain invariant holds in every reachable state -/

theorem rootInv_claimRow (c : Nat) (now : Int) (r : RootDomain) :
    rootInv (claimRow c now r) := by
  simp [rootInv, claimRow]

theorem rootInv_applyOutcome (oc : ScanOutcome) (now : Int)
    (r : RootDomain) : rootInv (applyOutcome oc now r) := by
  cases oc <;> simp [rootInv, applyOutcome]

theorem rootInv_newRootDomain (i : Nat) (d : String) (setId : Nat) :
    rootInv (newRootDomain i d setId) := by
  simp [rootInv, newRootDomain]

theorem storeInv_step (s : Store) (op : Op) (h : storeInv s) :
    storeInv (s.step op) := by
  cases op with
  | claimBatch c b now ttl =>
    intro r hr
    simp only [Store.step, Store.claimBatch, List.mem_map] at hr
    obtain ⟨r0, hr0, rfl⟩ := hr
    split
    · exact rootInv_claimRow c now r0
    · exact h r0 hr0
  | reportResult c d oc now =>
    intro r hr
    simp only [Store.step, Store.reportResult] at hr
    split at hr
    · simp only [List.mem_map] at hr
      obtain ⟨r0, hr0, rfl⟩ := hr
      split
      · exact rootInv_applyOutcome oc now r0
      · exact h r0 hr0
    · split at hr <;> exact h r hr
  | priorityBump d now =>
    intro r hr
    simp only [Store.step, Store.priorityBump, List.mem_map] at hr
    obtain ⟨r0, hr0, rfl⟩ := hr
    have h0 := h r0 hr0
    split
    · simpa [rootInv] using h0
    · exact h0
  | recordHeartbeat c now =>
    intro r hr
    exact h r hr
  | insertDomains setId ds =>
    intro r hr
    simp only [Store.step] at hr
    rcases mem_insertDomainsToSet setId ds s hr with h1 | ⟨i, o, rfl⟩
    · exact h r h1
    · exact rootInv_newRootDomain i o setId
  | deleteDomainSet setId =>
    intro r hr
    by_cases hc : (s.domainSets.any fun ds => ds.id = setId) = true
    · have hstep : s.step (.deleteDomainSet setId) = { s with
          domainSets := s.domainSets.filter (fun ds => ds.id ≠ setId),
          rootDomains :=
            s.rootDomains.filter (fun rd => rd.domainSetId ≠ setId) } := by
        simp [Store.step, Store.deleteDomainSet, hc]
      rw [hstep] at hr
      exact h r (List.mem_of_mem_filter hr)
    · have hstep : s.step (.deleteDomainSet setId) = s := by
        simp [Store.step, Store.deleteDomainSet, hc]
      rw [hstep] at hr
      exact h r hr
  | createDomainSet n src now =>
    intro r hr
    exact h r hr
  | createClient n hash now =>
    intro r hr
    exact h r hr
  | deleteClient c =>
    intro r hr
    exact h r hr
  | reclaimFailed =>
    intro r hr
    simp only [Store.step, Store.reclaimFailed, List.mem_map] at hr
    obtain ⟨r0, hr0, rfl⟩ := hr
    have h0 := h r0 hr0
    by_cases hf : r0.status = .failed
    · obtain ⟨h1, h2⟩ := h0
      rw [if_pos (by simp [hf])]
      refine ⟨?_, h2⟩
      rw [hf] at h1
      simp only [reduceCtorEq, iff_false] at h1
      simp [h1]
    · rw [if_neg (by simp [hf])]
      exact h0

/-- C6: every operation — claim, report, bump, heartbeat, insert, delete
(and the cooldown revert, registration and client deletion) — preserves
the RootDomain invariant `claimed_by non-null ↔ status = InProgress` and
`claimed_at non-null ↔ claimed_by non-null`, so the invariant holds in
every store state reachable from the empty store. -/
theorem claim6_invariant_every_op :
    (∀ (s : Store) (op : Op), storeInv s → storeInv (s.step op)) ∧
      ∀ ops : List Op, storeInv (runOps ops) := by
  have hrun : ∀ (ops : List Op) (s : Store), storeInv s →
      storeInv (ops.foldl Store.step s) := by
    intro ops
    induction ops with
    | nil => exact fun s hs => hs
    | cons op rest ih =>
      intro s hs
      exact ih (s.step op) (storeInv_step s op hs)
  refine ⟨storeInv_step, fun ops => hrun ops initialStore ?_⟩
  intro r hr
  cases hr

/-- Witness for C6: the invariant holds after bumping a domain of the
sample store (whose rows all satisfy the invariant). -/
theorem claim6_witness :
    storeInv (sampleStore.step (Op.priorityBump 10 50)) :=
  claim6_invariant_every_op.1 sampleStore (Op.priorityBump 10 50)
    (by unfold storeInv rootInv sampleStore newRootDomain; decide)

/-! ## C7: a bumped Pending domain is claimed first -/

theorem claimLE_trans : ∀ (a b c : RootDomain),
    claimLE a b → claimLE b c → claimLE a c := by
  intro a b c h1 h2
  simp only [claimLE, ne_eq, decide_not, Bool.not_eq_true',
    decide_eq_false_iff_not] at h1 h2 ⊢
  exact Batteries.TransCmp.le_trans h1 h2

theorem claimLE_total : ∀ (a b : RootDomain),
    claimLE a b || claimLE b a := by
  intro a b
  simp only [claimLE, ne_eq, decide_not, Bool.or_eq_true,
    Bool.not_eq_true', decide_eq_false_iff_not]
  by_cases hc : claimCmp a b = .gt
  · right
    rw [Batteries.OrientedCmp.cmp_eq_gt.1 hc]
    simp
  · left
    exact hc

theorem claimCmp_none_some_gt {a b : RootDomain} {q : Int}
    (hqa : a.queuedAt = some q) (hqb : b.queuedAt = none) :
    claimCmp b a = .gt := by
  simp [claimCmp, compareLex, cmpByQueued, hqa, hqb, cmpQueuedAt,
    Ordering.then]

/-- C7: among two Pending domains equal up to the priority marker — one
with `queued_at` set, one without — the bumped one is claimed no later
than the other: whenever a `ClaimBatch` returns the unbumped domain it
also returns the bumped one, and on the two-domain store with
`batchSize = 1` the batch is exactly the bumped domain. -/
theorem claim7_bumped_claimed_first (s : Store) (a b : RootDomain) (q : Int)
    (c bs : Nat) (now ttl : Int)
    (hinj : ∀ x ∈ s.rootDomains, ∀ y ∈ s.rootDomains, x.id = y.id → x = y)
    (ha : a ∈ s.rootDomains) (hb : b ∈ s.rootDomains)
    (hsa : a.status = .pending) (hsb : b.status = .pending)
    (hqa : a.queuedAt = some q) (hqb : b.queuedAt = none) :
    (b.id ∈ (s.claimBatch c bs now ttl).2.map RootDomain.id →
      a.id ∈ (s.claimBatch c bs now ttl).2.map RootDomain.id) ∧
    (s.rootDomains = [b, a] → bs = 1 →
      (s.claimBatch c bs now ttl).2 = [claimRow c now a]) := by
  have hel_a : claimEligible a now ttl = true := by
    simp [claimEligible, hsa]
  have hel_b : claimEligible b now ttl = true := by
    simp [claimEligible, hsb]
  have hba_gt : claimCmp b a = .gt := claimCmp_none_some_gt hqa hqb
  have hba_le : claimLE b a = false := by
    simp [claimLE, hba_gt]
  have hproj : (fun r => (claimRow c now r).id) = RootDomain.id :=
    funext fun r => rfl
  have hout : (s.claimBatch c bs now ttl).2.map RootDomain.id =
      ((s.claimCandidates now ttl).take bs).map RootDomain.id := by
    simp only [Store.claimBatch, List.map_map]
    rw [show RootDomain.id ∘ claimRow c now =
      (fun r => (claimRow c now r).id) from rfl, hproj]
  have hsorted : (s.claimCandidates now ttl).Pairwise
      (fun u v => claimLE u v = true) := by
    unfold Store.claimCandidates
    exact List.sorted_mergeSort claimLE_trans claimLE_total _
  have hamem : a ∈ s.claimCandidates now ttl := by
    unfold Store.claimCandidates
    rw [List.mem_mergeSort]
    exact List.mem_filter.2 ⟨ha, hel_a⟩
  constructor
  · intro hbid
    rw [hout] at hbid ⊢
    obtain ⟨rb, hrb_take, hrb_id⟩ := List.mem_map.1 hbid
    have hrb_cand : rb ∈ s.claimCandidates now ttl :=
      List.take_subset _ _ hrb_take
    have hrb_mem : rb ∈ s.rootDomains := by
      unfold Store.claimCandidates at hrb_cand
      rw [List.mem_mergeSort] at hrb_cand
      exact (List.mem_filter.1 hrb_cand).1
    have hrb_eq : rb = b := hinj rb hrb_mem b hb hrb_id
    subst hrb_eq
    by_cases hat : a ∈ (s.claimCandidates now ttl).take bs
    · exact List.mem_map.2 ⟨a, hat, rfl⟩
    · exfalso
      have hadrop : a ∈ (s.claimCandidates now ttl).drop bs := by
        have hsplit := hamem
        rw [← List.take_append_drop bs (s.claimCandidates now ttl)]
          at hsplit
        rcases List.mem_append.1 hsplit with hmem | hmem
        · exact absurd hmem hat
        · exact hmem
      have hpw : ((s.claimCandidates now ttl).take bs ++
          (s.claimCandidates now ttl).drop bs).Pairwise
            (fun u v => claimLE u v = true) := by
        rw [List.take_append_drop]
        exact hsorted
      have hle := (List.pairwise_append.1 hpw).2.2 rb hrb_take a hadrop
      rw [hba_le] at hle
      exact Bool.false_ne_true hle
  · intro hlist hbs
    subst hbs
    have hfil : s.rootDomains.filter
        (fun r => claimEligible r now ttl) = [b, a] := by
      rw [hlist]
      rw [List.filter_cons_of_pos (by simpa using hel_b),
        List.filter_cons_of_pos (by simpa using hel_a)]
      rfl
    have hlen : (s.claimCandidates now ttl).length = 2 := by
      unfold Store.claimCandidates
      rw [List.length_mergeSort, hfil]
      rfl
    obtain ⟨x, y, hxy⟩ := List.length_eq_two.1 hlen
    have hbmem : b ∈ s.claimCandidates now ttl := by
      unfold Store.claimCandidates
      rw [List.mem_mergeSort]
      exact List.mem_filter.2 ⟨hb, hel_b⟩
    rw [hxy] at hbmem hamem hsorted
    have hab : a ≠ b := by
      intro he
      rw [he, hqb] at hqa
      cases hqa
    have hxy_le : claimLE x y = true :=
      (List.pairwise_cons.1 hsorted).1 y (by simp)
    have hx : x = a := by
      rcases List.mem_cons.1 hamem with hax | hay
      · exact hax.symm
      · simp only [List.mem_singleton] at hay
        rcases List.mem_cons.1 hbmem with hbx | hby
        · exfalso
          rw [← hbx, ← hay] at hxy_le
          rw [hba_le] at hxy_le
          exact Bool.false_ne_true hxy_le
        · simp only [List.mem_singleton] at hby
          exact absurd (hay.trans hby.symm) hab
    subst hx
    have htake : (s.claimCandidates now ttl).take 1 = [x] := by
      rw [hxy]
      rfl
    simp only [Store.claimBatch]
    rw [htake]
    rfl

/-- Witness for C7: on the two-domain store, `ClaimBatch` with batch size
1 returns the bumped domain, claimed by the caller. -/
theorem claim7_witness :
    (bumpStore.claimBatch 5 1 100 60).2 = [claimRow 5 100 bumpedRow] :=
  (claim7_bumped_claimed_first bumpStore bumpedRow plainRow 50 5 1 100 60
    (by decide) (by decide) (by decide) rfl rfl rfl rfl).2 rfl rfl

end LocPlace
